import Mathlib

/-
  Verification of the skagent Agent/Task Registry, Assignment Engine and
  Project Synchronization core.

  Shallow embedding conventions:
  * Go strings whose characters matter (titles, descriptions, capabilities,
    keywords) are modelled as `List Char`; identifier-like strings (IDs,
    names, labels, status strings) are modelled as Lean `String`.
  * Go's string-typed enums (`AgentStatus`, `TaskStatus`) are modelled as
    `String` together with the named constants from the source, so that
    comparisons against arbitrary literals (as in `findBestAgent`) keep
    their source meaning.
  * Go maps (`map[string]*T`) are modelled as association lists
    `List (String × T)`; `mapSet` replaces the first binding with the given
    key or appends a new one, `mapFind` returns the first binding.
  * Pointer back-references (`Agent.CurrentTask *Task`) are modelled by the
    referenced task's ID (`Option String`).
  * `float64` values are modelled as `ℚ`; `int`/`int64` as `ℤ`;
    `time.Time` as `Nat`, with each operation that calls `time.Now()`
    taking the current instant as an explicit `now` parameter.
  * Methods that mutate through a pointer receiver and return `error` are
    modelled as functions `State → ... → State × Option Err`.
-/

/-- First binding with the given key in an association list (Go map lookup). -/
def mapFind {α : Type} : List (String × α) → String → Option α
  | [], _ => none
  | (k, v) :: rest, key => if k = key then some v else mapFind rest key

/-- Replace the first binding with the given key, or append one (Go map store). -/
def mapSet {α : Type} : List (String × α) → String → α → List (String × α)
  | [], key, v => [(key, v)]
  | (k, w) :: rest, key, v =>
    if k = key then (key, v) :: rest else (k, w) :: mapSet rest key v

namespace agents

/-- Agent status string constants (source: `AgentStatus` constants). -/
def StatusIdle : String := "idle"

def StatusWorking : String := "working"

def StatusPaused : String := "paused"

def StatusError : String := "error"

def StatusOffline : String := "offline"

/-- Task status string constants (source: `TaskStatus` constants). -/
def TaskStatusPending : String := "pending"

def TaskStatusQueued : String := "queued"

def TaskStatusInProgress : String := "in_progress"

def TaskStatusCompleted : String := "completed"

def TaskStatusFailed : String := "failed"

def TaskStatusCancelled : String := "cancelled"

/-- Source: `AgentConfig`. -/
structure AgentConfig where
  provider : String := ""
  model : String := ""
  systemPrompt : String := ""
  maxConcurrent : Int := 0
  timeout : Int := 0
  autoAssign : Bool := false
  preferredTasks : List String := []
deriving DecidableEq, Repr

/-- Source: `AgentStats`.  `SuccessRate float64` is modelled as `ℚ`. -/
structure AgentStats where
  tasksCompleted : Int := 0
  tasksFailed : Int := 0
  totalTime : Int := 0
  avgTime : Int := 0
  lastActive : Nat := 0
  successRate : ℚ := 0
deriving DecidableEq, Repr

/-- Source: `TaskResult`. -/
structure TaskResult where
  success : Bool := false
  output : String := ""
  error : String := ""
  artifacts : List String := []
  duration : Int := 0
  timestamp : Nat := 0
deriving DecidableEq, Repr

/-- Source: `Task` of the agents package (the Registry's internal task).
`Meta map[string]string` is not read by any modelled operation and is left
out; timestamps are `Nat`. -/
structure Task where
  id : String := ""
  title : List Char := []
  description : List Char := []
  priority : Int := 0
  status : String := ""
  assignedTo : String := ""
  labels : List String := []
  projectID : String := ""
  externalID : String := ""
  source : String := ""
  result : Option TaskResult := none
  createdAt : Nat := 0
  updatedAt : Nat := 0
  startedAt : Option Nat := none
  completedAt : Option Nat := none
deriving DecidableEq, Repr

/-- Source: `Agent`.  `CurrentTask *Task` is modelled by the task's ID;
`Meta` and the embedded mutex are not part of the functional state. -/
structure Agent where
  id : String := ""
  name : String := ""
  type' : String := ""
  status : String := ""
  description : String := ""
  labels : List String := []
  capabilities : List (List Char) := []
  load : Int := 0
  config : AgentConfig := {}
  stats : AgentStats := {}
  currentTask : Option String := none
  createdAt : Nat := 0
  updatedAt : Nat := 0
deriving DecidableEq, Repr

/-- Source: `Registry` (the `ctx` field is not part of the data state). -/
structure Registry where
  agents : List (String × Agent) := []
  tasks : List (String × Task) := []
deriving DecidableEq, Repr

/-- Source: the `Err*` registry error values. -/
inductive RegErr where
  | errAgentNotFound
  | errTaskNotFound
  | errAgentBusy
deriving DecidableEq, Repr

/-- Source: `Registry.RegisterAgent`.  `uuid.New().String()` is modelled by
the explicit `fresh` parameter, used only when the incoming ID is empty. -/
def registerAgent (r : Registry) (a : Agent) (fresh : String) (now : Nat) : Registry :=
  let a1 := if a.id = "" then { a with id := fresh } else a
  let a2 := { a1 with createdAt := now, updatedAt := now, status := StatusIdle }
  { r with agents := mapSet r.agents a2.id a2 }

/-- Source: `Registry.AssignTask`. -/
def assignTask (r : Registry) (taskID agentID : String) (now : Nat) :
    Registry × Option RegErr :=
  match mapFind r.tasks taskID with
  | none => (r, some .errTaskNotFound)
  | some task =>
    match mapFind r.agents agentID with
    | none => (r, some .errAgentNotFound)
    | some agent =>
      if agent.status ≠ StatusIdle then (r, some .errAgentBusy)
      else
        let task' := { task with
          assignedTo := agentID, status := TaskStatusInProgress,
          startedAt := some now, updatedAt := now }
        let agent' := { agent with
          status := StatusWorking, currentTask := some task.id, updatedAt := now }
        ({ r with tasks := mapSet r.tasks taskID task',
                  agents := mapSet r.agents agentID agent' }, none)

/-- Source: `Registry.CompleteTask`.  Go's `int64` average uses truncated
division (`Int.div`); `SuccessRate` is the `ℚ` model of the float division. -/
def completeTask (r : Registry) (taskID : String) (result : Option TaskResult)
    (now : Nat) : Registry × Option RegErr :=
  match mapFind r.tasks taskID with
  | none => (r, some .errTaskNotFound)
  | some task =>
    let task' := { task with
      status := TaskStatusCompleted, completedAt := some now,
      updatedAt := now, result := result }
    let r1 := { r with tasks := mapSet r.tasks taskID task' }
    if task.assignedTo ≠ "" then
      match mapFind r1.agents task.assignedTo with
      | some agent =>
        let completed := agent.stats.tasksCompleted + 1
        let s1 := { agent.stats with tasksCompleted := completed, lastActive := now }
        let s2 :=
          match result with
          | some res =>
            let total := s1.totalTime + res.duration
            let s1' := { s1 with totalTime := total, avgTime := Int.tdiv total completed }
            if 0 < completed then
              { s1' with successRate :=
                  (completed : ℚ) / ((completed + agent.stats.tasksFailed : Int) : ℚ) }
            else s1'
          | none => s1
        let agent' := { agent with
          status := StatusIdle, currentTask := none, stats := s2, updatedAt := now }
        ({ r1 with agents := mapSet r1.agents task.assignedTo agent' }, none)
      | none => (r1, none)
    else (r1, none)

/-- Source: `matchesLabels`. -/
def matchesLabels (agentLabels taskLabels : List String) : Bool :=
  agentLabels.isEmpty ||
    agentLabels.any (fun al => taskLabels.any (fun tl => al == tl))

/-- Inner loop of `Registry.AutoAssign`: scan the agent list for the first
agent that is idle, has auto-assign enabled and matches the task's labels;
on a hit return the updated agent list and the chosen agent's ID. -/
def tryAssignAgents (t : Task) (now : Nat) :
    List (String × Agent) → Option (List (String × Agent) × String)
  | [] => none
  | (k, a) :: rest =>
    if a.status == StatusIdle && a.config.autoAssign &&
        matchesLabels a.labels t.labels then
      some ((k, { a with status := StatusWorking, currentTask := some t.id,
                         updatedAt := now }) :: rest, a.id)
    else
      match tryAssignAgents t now rest with
      | none => none
      | some (rest', aid) => some ((k, a) :: rest', aid)

/-- Outer loop of `Registry.AutoAssign` over the task list. -/
def autoAssignTasks (now : Nat) :
    List (String × Task) → List (String × Agent) →
    List (String × Task) × List (String × Agent) × Nat
  | [], as => ([], as, 0)
  | (k, t) :: rest, as =>
    if t.status == TaskStatusPending then
      match tryAssignAgents t now as with
      | some (as2, aid) =>
        let t' := { t with assignedTo := aid, status := TaskStatusQueued,
                           updatedAt := now }
        let (ts', as3, n) := autoAssignTasks now rest as2
        ((k, t') :: ts', as3, n + 1)
      | none =>
        let (ts', as3, n) := autoAssignTasks now rest as
        ((k, t) :: ts', as3, n)
    else
      let (ts', as3, n) := autoAssignTasks now rest as
      ((k, t) :: ts', as3, n)

/-- Source: `Registry.AutoAssign` (iteration order of the Go maps is fixed
here as the association-list order). -/
def autoAssign (r : Registry) (now : Nat) : Registry × Nat :=
  let (ts, as, n) := autoAssignTasks now r.tasks r.agents
  ({ tasks := ts, agents := as }, n)

/-- Source: `Registry.StartAgent`. -/
def startAgent (r : Registry) (agentID : String) (now : Nat) :
    Registry × Option RegErr :=
  match mapFind r.agents agentID with
  | none => (r, some .errAgentNotFound)
  | some agent =>
    let agent' := { agent with status := StatusIdle, updatedAt := now }
    ({ r with agents := mapSet r.agents agentID agent' }, none)

/-- Source: `Registry.StopAgent`. -/
def stopAgent (r : Registry) (agentID : String) (now : Nat) :
    Registry × Option RegErr :=
  match mapFind r.agents agentID with
  | none => (r, some .errAgentNotFound)
  | some agent =>
    let agent' := { agent with status := StatusOffline, updatedAt := now }
    ({ r with agents := mapSet r.agents agentID agent' }, none)

end agents

namespace project

/-- Source: `Task` of the project package (the tracker mirror's task).
`Metadata map[string]interface{}` is not read by any modelled operation
and is left out. -/
structure Task where
  id : String := ""
  title : List Char := []
  description : List Char := []
  priority : String := ""
  status : String := ""
  assignee : String := ""
  labels : List String := []
  createdAt : Nat := 0
  updatedAt : Nat := 0
  dueDate : Option Nat := none
deriving DecidableEq, Repr

/-- Source: `TaskAssignment` of the project package. -/
structure TaskAssignment where
  taskID : String := ""
  agentID : String := ""
  assignedBy : String := ""
  assignedAt : Nat := 0
  status : String := ""
  result : String := ""
deriving DecidableEq, Repr

/-- The task-tracking state of the project `Manager`: the mirror of
tracker-origin tasks plus the assignment map (the client, logger, config
and synchronization fields are not data state). -/
structure ManagerState where
  tasks : List (String × Task) := []
  assignments : List (String × TaskAssignment) := []
deriving DecidableEq, Repr

/-- The fields of a `task.updated` webhook event's `Data` map that
`handleTaskUpdated` reads: each is `some s` when the key is present with a
string value, `none` when absent or of another type (a failed Go type
assertion). -/
structure UpdateEventData where
  taskId : Option String := none
  status : Option String := none
  assignee : Option String := none
deriving DecidableEq, Repr

/-- Source: `Manager.handleTaskUpdated`.  A missing/non-string `task_id`
or an unknown task leaves the state unchanged; otherwise the fields
present in the payload are patched onto the stored task. -/
def handleTaskUpdated (m : ManagerState) (e : UpdateEventData) : ManagerState :=
  match e.taskId with
  | none => m
  | some tid =>
    match mapFind m.tasks tid with
    | none => m
    | some task =>
      let t1 := match e.status with
        | some s => { task with status := s }
        | none => task
      let t2 := match e.assignee with
        | some a => { t1 with assignee := a }
        | none => t1
      { m with tasks := mapSet m.tasks tid t2 }

/-- Source: `splitWords` — the whitespace test of its rune loop. -/
def isSpaceChar (c : Char) : Bool :=
  c == ' ' || c == '\t' || c == '\n' || c == '\r'

/-- Rune loop of `splitWords`, carrying the `current` accumulator. -/
def splitWordsAux : List Char → List Char → List (List Char)
  | [], current => if current.isEmpty then [] else [current]
  | c :: rest, current =>
    if isSpaceChar c then
      if current.isEmpty then splitWordsAux rest []
      else current :: splitWordsAux rest []
    else splitWordsAux rest (current ++ [c])

/-- Source: `splitWords`. -/
def splitWords (text : List Char) : List (List Char) :=
  splitWordsAux text []

/-- Source: the stop-word set of `isStopWord`. -/
def stopWords : List (List Char) :=
  (["the", "and", "for", "are", "but",
    "not", "you", "all", "can", "had",
    "her", "was", "one", "our", "out",
    "day", "get", "has", "him", "his",
    "how", "its", "may", "new", "now",
    "old", "see", "two", "way", "who",
    "boy", "did", "she", "use", "with",
    "this", "that", "from", "they", "have",
    "will", "would", "there", "their"]).map String.toList

/-- Source: `isStopWord` (Go map lookup with `false` default). -/
def isStopWord (word : List Char) : Bool :=
  stopWords.contains word

/-- Source: `extractKeywords`. -/
def extractKeywords (text : List Char) : List (List Char) :=
  (splitWords text).filter (fun w => decide (3 < w.length) && !isStopWord w)

/-- Source: `containsSubstring` — the naive scan
`for i := 0; i <= len(text)-len(substring); i++`, rendered recursively:
test the window at the current position, then slide by one. -/
def containsSubstring : List Char → List Char → Bool
  | [], sub => sub.isEmpty
  | c :: rest, sub =>
    if (c :: rest).length < sub.length then false
    else ((c :: rest).take sub.length == sub) || containsSubstring rest sub

/-- Source: `containsString` (`text[:k]` is `take k`, `text[n-k:]` is
`drop (n-k)`). -/
def containsString (text sub : List Char) : Bool :=
  decide (sub.length ≤ text.length) &&
    (text == sub ||
      (decide (sub.length < text.length) &&
        (text.take sub.length == sub ||
         text.drop (text.length - sub.length) == sub ||
         containsSubstring text sub)))

/-- Source: `Manager.calculateAgentScore` (the commented-out assignment-rule
block is dead code).  The nested keyword/capability loops accumulate into
`score`, then the load factor `1 - Load/100` is applied. -/
def calculateAgentScore (t : Task) (a : agents.Agent) : ℚ :=
  let keywords := extractKeywords (t.title ++ ' ' :: t.description)
  let score := keywords.foldl
    (fun s kw => a.capabilities.foldl
      (fun s2 cap => if containsString cap kw then s2 + 1 else s2) s) 0
  let loadFactor : ℚ := 1 - (a.load : ℚ) / 100
  score * loadFactor

/-- Candidate loop of `Manager.findBestAgent`, carrying `bestAgent` and
`bestScore`. -/
def findBestAgentGo (t : Task) : List agents.Agent → String → ℚ → String
  | [], best, _ => best
  | a :: rest, best, bestScore =>
    if a.status ≠ "active" then findBestAgentGo t rest best bestScore
    else
      let s := calculateAgentScore t a
      if bestScore < s then findBestAgentGo t rest a.id s
      else findBestAgentGo t rest best bestScore

/-- Source: `Manager.findBestAgent`, over the registry's agent list. -/
def findBestAgent (t : Task) (agentList : List agents.Agent) : String :=
  findBestAgentGo t agentList "" 0

end project

/-! ### Derived definitions used by the verification -/

namespace agents

/-- The spec's agent invariant: `Status == Working` iff `CurrentTask != nil`. -/
def agentInv (a : Agent) : Prop :=
  a.status = StatusWorking ↔ a.currentTask ≠ none

instance (a : Agent) : Decidable (agentInv a) := by
  unfold agentInv; infer_instance

/-- The agent invariant over every agent stored in a registry. -/
def registryInv (r : Registry) : Prop :=
  ∀ p ∈ r.agents, agentInv p.2

instance (r : Registry) : Decidable (registryInv r) := by
  unfold registryInv; infer_instance


/-- The eligibility guard of `AutoAssign`'s inner loop: idle, auto-assign
enabled, and label-matching for the task. -/
def qualifies (a : Agent) (t : Task) : Bool :=
  a.status == StatusIdle && a.config.autoAssign && matchesLabels a.labels t.labels

/-- How a single agent entry can evolve across one `AutoAssign` run:
unchanged, or claimed by some task (idle, auto-assign enabled, set to
`Working` with a current task). -/
def agentStep (now : Nat) (a a' : Agent) : Prop :=
  a' = a ∨ (a.status = StatusIdle ∧ a.config.autoAssign = true ∧
    ∃ tid, a' = { a with status := StatusWorking, currentTask := some tid,
                         updatedAt := now })

/-- What `AutoAssign` records for a task it assigns: the first qualifying
agent position `j` is selected (every initially-qualifying earlier agent
ends up `Working`), the task turns `Queued` and is assigned to that agent's
ID, and that agent ends `Working` on this task. -/
def assignedSpec (now : Nat) (as as' : List (String × Agent))
    (t t' : Task) : Prop :=
  ∃ j, ∃ hj : j < as.length, ∃ hj' : j < as'.length,
    qualifies ((as.get ⟨j, hj⟩).2) t = true ∧
    t' = { t with assignedTo := (as.get ⟨j, hj⟩).2.id,
                  status := TaskStatusQueued, updatedAt := now } ∧
    (as'.get ⟨j, hj'⟩).2 = { (as.get ⟨j, hj⟩).2 with
                  status := StatusWorking, currentTask := some t.id,
                  updatedAt := now } ∧
    ∀ i2, ∀ hi2 : i2 < as.length, ∀ hi2' : i2 < as'.length, i2 < j →
      qualifies ((as.get ⟨i2, hi2⟩).2) t = true →
      ((as'.get ⟨i2, hi2'⟩).2).status = StatusWorking

end agents

/-- Registry used by the C2 counterexample: task `t1` is assigned to agent
`a1`, whose history is one failure and no completion. -/
def c2Reg : agents.Registry :=
  { tasks := [("t1", { id := "t1", assignedTo := "a1",
                       status := agents.TaskStatusInProgress })],
    agents := [("a1", { id := "a1", status := agents.StatusWorking,
                        currentTask := some "t1",
                        stats := { tasksFailed := 1 } })] }

/-- The agent statistics written by `CompleteTask` for a non-nil result when
the incremented completion counter is positive. -/
def completedStats (s : agents.AgentStats) (res : agents.TaskResult)
    (now : Nat) : agents.AgentStats :=
  { s with
      tasksCompleted := s.tasksCompleted + 1,
      lastActive := now,
      totalTime := s.totalTime + res.duration,
      avgTime := Int.tdiv (s.totalTime + res.duration) (s.tasksCompleted + 1),
      successRate := ((s.tasksCompleted + 1 : Int) : ℚ) /
        ((s.tasksCompleted + 1 + s.tasksFailed : Int) : ℚ) }

/-- Registry used by the C3 counterexample: agent `a1` is `Working` on
task `t1`, so the invariant holds. -/
def c3Reg : agents.Registry :=
  { tasks := [("t1", { id := "t1", status := agents.TaskStatusInProgress,
                       assignedTo := "a1" })],
    agents := [("a1", { id := "a1", status := agents.StatusWorking,
                        currentTask := some "t1" })] }

/-- Task and agent for the C1 counterexample: an idle agent whose
capability matches the task keyword exactly. -/
def c1Task : project.Task := { title := "backend".toList }

/-- The idle agent of the C1 counterexample. -/
def c1Agent : agents.Agent :=
  { id := "a1", status := agents.StatusIdle,
    capabilities := ["backend".toList], load := 0 }

/-- Task and agent for the C6 counterexample: title `"Code"`, capability
`"code"`, zero load. -/
def c6Task : project.Task := { title := "Code".toList }

/-- The agent of the C6 counterexample. -/
def c6Agent : agents.Agent := { capabilities := ["code".toList], load := 0 }

/-- Registry for the C5 witness: one pending `backend` task; agent `a0`
matches but has auto-assign disabled, agent `a1` is idle with auto-assign
enabled and a matching label. -/
def c5Reg : agents.Registry :=
  { tasks := [("t1", { id := "t1", status := agents.TaskStatusPending,
                       labels := ["backend"] })],
    agents := [("a0", { id := "a0", status := agents.StatusIdle,
                        labels := ["backend"],
                        config := { autoAssign := false } }),
               ("a1", { id := "a1", status := agents.StatusIdle,
                        labels := ["backend"],
                        config := { autoAssign := true } })] }


/-! ### Helper lemmas about the hand-rolled substring scan -/

namespace project

/-- Substring occurrence: `sub` occurs contiguously in `text`. -/
def occursIn (text sub : List Char) : Prop :=
  ∃ pre post : List Char, text = pre ++ sub ++ post

theorem occursIn_length_le {text sub : List Char} (h : occursIn text sub) :
    sub.length ≤ text.length := by
  obtain ⟨pre, post, rfl⟩ := h
  simp [List.length_append]
  omega

theorem take_eq_iff_exists_post {text sub : List Char}
    (hle : sub.length ≤ text.length) :
    text.take sub.length = sub ↔ ∃ post, text = sub ++ post := by
  constructor
  · intro h
    refine ⟨text.drop sub.length, ?_⟩
    conv_lhs => rw [← List.take_append_drop sub.length text]
    rw [h]
  · rintro ⟨post, rfl⟩
    simp

theorem containsSubstring_iff (text sub : List Char) :
    containsSubstring text sub = true ↔ occursIn text sub := by
  induction text with
  | nil =>
    simp only [containsSubstring, occursIn]
    cases sub with
    | nil => simp
    | cons c cs =>
      simp only [List.isEmpty_cons]
      constructor
      · intro h; cases h
      · rintro ⟨pre, post, h⟩
        exact absurd h (by simp)
  | cons c rest ih =>
    simp only [containsSubstring]
    by_cases hlen : (c :: rest).length < sub.length
    · simp only [if_pos hlen]
      constructor
      · intro h; cases h
      · intro h
        exact absurd (occursIn_length_le h) (by omega)
    · simp only [if_neg hlen, Bool.or_eq_true, beq_iff_eq, ih]
      push_neg at hlen
      rw [take_eq_iff_exists_post hlen]
      constructor
      · rintro (⟨post, hp⟩ | ⟨pre, post, hp⟩)
        · exact ⟨[], post, by simpa using hp⟩
        · exact ⟨c :: pre, post, by simp [hp]⟩
      · rintro ⟨pre, post, h⟩
        cases pre with
        | nil => exact Or.inl ⟨post, by simpa using h⟩
        | cons p ps =>
          right
          simp only [List.cons_append, List.cons.injEq] at h
          exact ⟨ps, post, h.2⟩

theorem containsSubstring_eq_false_of_short {text sub : List Char}
    (h : text.length < sub.length) : containsSubstring text sub = false := by
  cases text with
  | nil =>
    cases sub with
    | nil => simp at h
    | cons c cs => simp [containsSubstring]
  | cons c rest => simp only [containsSubstring, if_pos h]

end project

namespace project

theorem containsString_eq_containsSubstring (text sub : List Char) :
    containsString text sub = containsSubstring text sub := by
  unfold containsString
  by_cases h1 : sub.length ≤ text.length
  · by_cases h2 : text = sub
    · subst h2
      have : containsSubstring text text = true :=
        (containsSubstring_iff text text).2 ⟨[], [], by simp⟩
      simp [this]
    · by_cases h3 : sub.length < text.length
      · rcases hcs : containsSubstring text sub with _ | _
        · have hocc : ¬ occursIn text sub := fun h =>
            by simp [(containsSubstring_iff text sub).2 h] at hcs
          have htake : ¬ text.take sub.length = sub := fun h =>
            hocc ⟨[], text.drop sub.length, by
              conv_lhs => rw [← List.take_append_drop sub.length text]
              rw [h]; simp⟩
          have hdrop : ¬ text.drop (text.length - sub.length) = sub := fun h =>
            hocc ⟨text.take (text.length - sub.length), [], by
              conv_lhs => rw [← List.take_append_drop (text.length - sub.length) text]
              rw [h]; simp⟩
          simp [h1, h2, h3, htake, hdrop, hcs]
        · simp [h1, h3, hcs]
      · have hlen : text.length = sub.length := by omega
        have : containsSubstring text sub = false := by
          rcases hcs : containsSubstring text sub with _ | _
          · rfl
          · exfalso
            obtain ⟨pre, post, hp⟩ := (containsSubstring_iff text sub).1 hcs
            have : pre.length + (sub.length + post.length) = sub.length := by
              have := congrArg List.length hp
              simpa [List.length_append] using this.symm.trans hlen
            have hpre : pre = [] := by
              cases pre with
              | nil => rfl
              | cons _ _ => simp at this; omega
            have hpost : post = [] := by
              cases post with
              | nil => rfl
              | cons _ _ => simp at this; omega
            subst hpre hpost
            exact h2 (by simpa using hp)
        simp [this, h2, h3]
  · have : containsSubstring text sub = false :=
      containsSubstring_eq_false_of_short (by omega)
    simp [this, h1]

end project

/-- C10: the hand-rolled `containsString` agrees with the naive reference
scan `containsSubstring` on every pair of character lists, and both return
`true` exactly when `sub` occurs as a contiguous substring of `text`
(the empty `sub` always matches, with `pre = post = []` available). -/
theorem c10_containsString_equiv (text sub : List Char) :
    project.containsString text sub = project.containsSubstring text sub ∧
      (project.containsString text sub = true ↔
        ∃ pre post : List Char, text = pre ++ sub ++ post) := by
  refine ⟨project.containsString_eq_containsSubstring text sub, ?_⟩
  rw [project.containsString_eq_containsSubstring text sub]
  exact project.containsSubstring_iff text sub

/-! ### Association-list (Go map) lemmas -/

theorem mapFind_mapSet_self {α : Type} (l : List (String × α)) (k : String) (v : α) :
    mapFind (mapSet l k v) k = some v := by
  induction l with
  | nil => simp [mapSet, mapFind]
  | cons p rest ih =>
    obtain ⟨k', w⟩ := p
    by_cases h : k' = k
    · simp [mapSet, mapFind, h]
    · simp [mapSet, mapFind, h, ih]

theorem mapFind_mapSet_ne {α : Type} (l : List (String × α)) (k k' : String) (v : α)
    (h : k' ≠ k) : mapFind (mapSet l k v) k' = mapFind l k' := by
  induction l with
  | nil => simp [mapSet, mapFind, Ne.symm h]
  | cons p rest ih =>
    obtain ⟨k0, w⟩ := p
    by_cases h0 : k0 = k
    · subst h0
      simp [mapSet, mapFind, Ne.symm h]
    · simp only [mapSet, if_neg h0, mapFind]
      by_cases h1 : k0 = k'
      · simp [h1]
      · simp [h1, ih]

theorem mem_mapSet {α : Type} {l : List (String × α)} {k : String} {v : α}
    {p : String × α} (h : p ∈ mapSet l k v) : p ∈ l ∨ p = (k, v) := by
  induction l with
  | nil => simpa [mapSet] using h
  | cons q rest ih =>
    obtain ⟨k0, w⟩ := q
    by_cases h0 : k0 = k
    · simp only [mapSet, if_pos h0] at h
      rcases List.mem_cons.1 h with h1 | h1
      · exact Or.inr h1
      · exact Or.inl (List.mem_cons_of_mem _ h1)
    · simp only [mapSet, if_neg h0] at h
      rcases List.mem_cons.1 h with h1 | h1
      · exact Or.inl (h1 ▸ List.mem_cons_self _ _)
      · rcases ih h1 with h2 | h2
        · exact Or.inl (List.mem_cons_of_mem _ h2)
        · exact Or.inr h2

/-! ### C7: unknown `task.updated` events are dropped -/

/-- C7: ingesting a `task.updated` event whose `task_id` is not present in
the mirror leaves the manager's task map and assignment map unchanged (the
handler is a total function, so there is no panic; the event is dropped). -/
theorem c7_taskUpdated_unknown_dropped (m : project.ManagerState)
    (e : project.UpdateEventData) (tid : String)
    (hid : e.taskId = some tid) (hmiss : mapFind m.tasks tid = none) :
    project.handleTaskUpdated m e = m := by
  simp [project.handleTaskUpdated, hid, hmiss]

/-- Witness for C7: a mirror holding task `task-1` receives
`task.updated{task_id := "unknown-99", status := "done"}` and is unchanged. -/
theorem c7_witness :
    project.handleTaskUpdated
      { tasks := [("task-1", { id := "task-1", status := "todo" })],
        assignments := [] }
      { taskId := some "unknown-99", status := some "done" } =
    { tasks := [("task-1", { id := "task-1", status := "todo" })],
      assignments := [] } :=
  c7_taskUpdated_unknown_dropped _ _ "unknown-99" rfl (by decide)

/-! ### C4: AssignTask error taxonomy and success effects -/

/-- C4: `AssignTask` returns `TaskNotFound` when the task is unknown,
`AgentNotFound` when the task exists but the agent is unknown, and
`AgentBusy` when both exist but the agent is not idle; in each error case
the registry is returned unchanged (no agent or task field changes, and no
panic — the operation is a total function into a typed error).  When both
exist and the agent is idle it succeeds, setting
`AssignedTo`/`InProgress`/`StartedAt` on the task and
`Working`/`CurrentTask` on the agent. -/
theorem c4_assignTask_cases (r : agents.Registry) (tid aid : String) (now : Nat) :
    (mapFind r.tasks tid = none →
      agents.assignTask r tid aid now = (r, some .errTaskNotFound)) ∧
    (∀ t, mapFind r.tasks tid = some t → mapFind r.agents aid = none →
      agents.assignTask r tid aid now = (r, some .errAgentNotFound)) ∧
    (∀ t a, mapFind r.tasks tid = some t → mapFind r.agents aid = some a →
      a.status ≠ agents.StatusIdle →
      agents.assignTask r tid aid now = (r, some .errAgentBusy)) ∧
    (∀ t a, mapFind r.tasks tid = some t → mapFind r.agents aid = some a →
      a.status = agents.StatusIdle →
      (agents.assignTask r tid aid now).2 = none ∧
      mapFind (agents.assignTask r tid aid now).1.tasks tid =
        some { t with assignedTo := aid, status := agents.TaskStatusInProgress,
                      startedAt := some now, updatedAt := now } ∧
      mapFind (agents.assignTask r tid aid now).1.agents aid =
        some { a with status := agents.StatusWorking, currentTask := some t.id,
                      updatedAt := now }) := by
  refine ⟨?_, ?_, ?_, ?_⟩
  · intro h; simp [agents.assignTask, h]
  · intro t ht ha; simp [agents.assignTask, ht, ha]
  · intro t a ht ha hb; simp [agents.assignTask, ht, ha, hb]
  · intro t a ht ha hidle
    have hst : agents.assignTask r tid aid now =
        ({ r with
            tasks := mapSet r.tasks tid
              { t with assignedTo := aid, status := agents.TaskStatusInProgress,
                       startedAt := some now, updatedAt := now },
            agents := mapSet r.agents aid
              { a with status := agents.StatusWorking, currentTask := some t.id,
                       updatedAt := now } }, none) := by
      simp [agents.assignTask, ht, ha, hidle]
    rw [hst]
    exact ⟨rfl, mapFind_mapSet_self _ _ _, mapFind_mapSet_self _ _ _⟩

/-- Witness for C4: on a registry with task `t1` and idle agent `a1`, the
success case of `c4_assignTask_cases` applies at `("t1", "a1")`, the
missing-agent case at `("t1", "ghost")`, and the missing-task case at
`("nope", "a1")`. -/
theorem c4_witness :
    (agents.assignTask
        { tasks := [("t1", { id := "t1", status := agents.TaskStatusPending })],
          agents := [("a1", { id := "a1", status := agents.StatusIdle })] }
        "t1" "a1" 5).2 = none ∧
    agents.assignTask
        { tasks := [("t1", { id := "t1", status := agents.TaskStatusPending })],
          agents := [("a1", { id := "a1", status := agents.StatusIdle })] }
        "t1" "ghost" 5 =
      ({ tasks := [("t1", { id := "t1", status := agents.TaskStatusPending })],
         agents := [("a1", { id := "a1", status := agents.StatusIdle })] },
       some .errAgentNotFound) ∧
    agents.assignTask
        { tasks := [("t1", { id := "t1", status := agents.TaskStatusPending })],
          agents := [("a1", { id := "a1", status := agents.StatusIdle })] }
        "nope" "a1" 5 =
      ({ tasks := [("t1", { id := "t1", status := agents.TaskStatusPending })],
         agents := [("a1", { id := "a1", status := agents.StatusIdle })] },
       some .errTaskNotFound) :=
  ⟨((c4_assignTask_cases _ "t1" "a1" 5).2.2.2
      { id := "t1", status := agents.TaskStatusPending }
      { id := "a1", status := agents.StatusIdle }
      (by decide) (by decide) rfl).1,
   (c4_assignTask_cases _ "t1" "ghost" 5).2.1
      { id := "t1", status := agents.TaskStatusPending } (by decide) (by decide),
   (c4_assignTask_cases _ "nope" "a1" 5).1 (by decide)⟩

/-! ### C2: CompleteTask and the success-rate recomputation -/

/-- Counterexample to C2 as stated: completing `t1` with a nil result
succeeds and increments `TasksCompleted` to 1 with `TasksFailed = 1`, yet
`SuccessRate` stays 0, not the claimed `1 / (1 + 1)` — the source only
recomputes `SuccessRate` inside the `result != nil` branch. -/
theorem c2_counterexample :
    (agents.completeTask c2Reg "t1" none 7).2 = none ∧
    ((mapFind (agents.completeTask c2Reg "t1" none 7).1.agents "a1").map
        (fun x => (x.stats.tasksCompleted, x.stats.tasksFailed, x.stats.successRate)))
      = some (1, 1, (0 : ℚ)) ∧
    (0 : ℚ) ≠ (1 : ℚ) / ((1 : ℚ) + (1 : ℚ)) :=
  ⟨by decide, by decide, by norm_num⟩

/-- C2 (amended): after a successful `CompleteTask` on a task assigned to an
existing agent with non-negative counters, the agent's `SuccessRate` equals
`completed / (completed + failed)` over the updated counters whenever the
supplied result is non-nil; when the result is nil the counters are still
updated but `SuccessRate` (like the duration statistics) is left unchanged. -/
theorem c2_completeTask_successRate (r : agents.Registry) (tid : String)
    (t : agents.Task) (a : agents.Agent) (res : agents.TaskResult) (now : Nat)
    (ht : mapFind r.tasks tid = some t)
    (hass : t.assignedTo ≠ "")
    (ha : mapFind r.agents t.assignedTo = some a)
    (hc : 0 ≤ a.stats.tasksCompleted) :
    (agents.completeTask r tid (some res) now).2 = none ∧
    ((mapFind (agents.completeTask r tid (some res) now).1.agents t.assignedTo).map
        (fun x => (x.stats.tasksCompleted, x.stats.tasksFailed, x.stats.successRate)))
      = some (a.stats.tasksCompleted + 1, a.stats.tasksFailed,
          ((a.stats.tasksCompleted + 1 : Int) : ℚ) /
            ((a.stats.tasksCompleted + 1 + a.stats.tasksFailed : Int) : ℚ)) ∧
    (agents.completeTask r tid none now).2 = none ∧
    ((mapFind (agents.completeTask r tid none now).1.agents t.assignedTo).map
        (fun x => (x.stats.tasksCompleted, x.stats.tasksFailed, x.stats.successRate)))
      = some (a.stats.tasksCompleted + 1, a.stats.tasksFailed,
          a.stats.successRate) := by
  have hpos : (0 : Int) < a.stats.tasksCompleted + 1 := by omega
  refine ⟨?_, ?_, ?_, ?_⟩
  · simp [agents.completeTask, ht, hass, ha]
  · simp [agents.completeTask, ht, hass, ha, hpos, mapFind_mapSet_self]
  · simp [agents.completeTask, ht, hass, ha]
  · simp [agents.completeTask, ht, hass, ha, mapFind_mapSet_self]

/-- Witness for C2's amended theorem at a concrete registry: one prior
failure, a non-nil result, success rate `(0+1)/(0+1+1)`. -/
theorem c2_witness :
    (agents.completeTask c2Reg "t1" (some { duration := 10 }) 7).2 = none ∧
    ((mapFind (agents.completeTask c2Reg "t1" (some { duration := 10 }) 7).1.agents "a1").map
        (fun x => (x.stats.tasksCompleted, x.stats.tasksFailed, x.stats.successRate)))
      = some (0 + 1, 1, ((0 + 1 : Int) : ℚ) / ((0 + 1 + 1 : Int) : ℚ)) :=
  have h := c2_completeTask_successRate c2Reg "t1"
    { id := "t1", assignedTo := "a1", status := agents.TaskStatusInProgress }
    { id := "a1", status := agents.StatusWorking, currentTask := some "t1",
      stats := { tasksFailed := 1 } }
    { duration := 10 } 7 (by decide) (by decide) (by decide) (by decide)
  ⟨h.1, h.2.1⟩

/-! ### C8: a second CompleteTask double-counts -/

theorem completeTask_some_spec (r : agents.Registry) (tid : String)
    (t : agents.Task) (a : agents.Agent) (res : agents.TaskResult) (now : Nat)
    (ht : mapFind r.tasks tid = some t)
    (hass : t.assignedTo ≠ "")
    (ha : mapFind r.agents t.assignedTo = some a)
    (hpos : (0 : Int) < a.stats.tasksCompleted + 1) :
    (agents.completeTask r tid (some res) now).2 = none ∧
    mapFind (agents.completeTask r tid (some res) now).1.tasks tid =
      some { t with status := agents.TaskStatusCompleted,
                    completedAt := some now, updatedAt := now,
                    result := some res } ∧
    mapFind (agents.completeTask r tid (some res) now).1.agents t.assignedTo =
      some { a with status := agents.StatusIdle, currentTask := none,
                    updatedAt := now,
                    stats := completedStats a.stats res now } := by
  refine ⟨?_, ?_, ?_⟩ <;>
    simp [agents.completeTask, ht, hass, ha, hpos, completedStats,
      mapFind_mapSet_self]

/-- C8: `CompleteTask` is not guarded against repetition: called twice on
the same existing task (non-nil result, assignee present, non-negative
counters), both calls return success and the assignee's `TasksCompleted`
is incremented each time, ending two above its initial value. -/
theorem c8_completeTask_double_count (r : agents.Registry) (tid : String)
    (t : agents.Task) (a : agents.Agent) (res : agents.TaskResult) (now1 now2 : Nat)
    (ht : mapFind r.tasks tid = some t)
    (hass : t.assignedTo ≠ "")
    (ha : mapFind r.agents t.assignedTo = some a)
    (hc : 0 ≤ a.stats.tasksCompleted) :
    (agents.completeTask r tid (some res) now1).2 = none ∧
    (agents.completeTask (agents.completeTask r tid (some res) now1).1
        tid (some res) now2).2 = none ∧
    ((mapFind (agents.completeTask (agents.completeTask r tid (some res) now1).1
          tid (some res) now2).1.agents t.assignedTo).map
        (fun x => x.stats.tasksCompleted))
      = some (a.stats.tasksCompleted + 2) := by
  have hpos1 : (0 : Int) < a.stats.tasksCompleted + 1 := by omega
  obtain ⟨h1, ht1, ha1⟩ :=
    completeTask_some_spec r tid t a res now1 ht hass ha hpos1
  have hpos2 : (0 : Int) <
      (completedStats a.stats res now1).tasksCompleted + 1 := by
    simp [completedStats]; omega
  obtain ⟨h2, ht2, ha2⟩ :=
    completeTask_some_spec (agents.completeTask r tid (some res) now1).1 tid
      _ _ res now2 ht1 hass ha1 hpos2
  refine ⟨h1, h2, ?_⟩
  rw [ha2]
  simp [completedStats]
  omega

/-- Witness for C8: completing `t1` twice from a one-task registry ends
with `TasksCompleted = 0 + 2`. -/
theorem c8_witness :
    ((mapFind (agents.completeTask
        (agents.completeTask
          { tasks := [("t1", { id := "t1", assignedTo := "a1",
                               status := agents.TaskStatusInProgress })],
            agents := [("a1", { id := "a1", status := agents.StatusWorking,
                                currentTask := some "t1" })] }
          "t1" (some { duration := 4 }) 7).1
        "t1" (some { duration := 4 }) 9).1.agents "a1").map
      (fun x => x.stats.tasksCompleted)) = some (0 + 2) :=
  (c8_completeTask_double_count _ "t1"
    { id := "t1", assignedTo := "a1", status := agents.TaskStatusInProgress }
    { id := "a1", status := agents.StatusWorking, currentTask := some "t1" }
    { duration := 4 } 7 9 (by decide) (by decide) (by decide) (by decide)).2.2

/-! ### C9: racing AssignTask calls on the same idle agent -/

/-- C9: both `AssignTask` calls run under the registry's exclusive lock, so
a race of two `AssignTask(T, A)` calls linearizes to the two sequential
orders, which (the calls being identical up to their timestamps) are both
the composition below: the first call succeeds, the second observes the
agent `Working` and returns `AgentBusy` leaving the state untouched, and
`A` ends `Working` with `CurrentTask = T` while `T` is assigned to `A`
alone. -/
theorem c9_assignTask_exclusive (r : agents.Registry) (tid aid : String)
    (t : agents.Task) (a : agents.Agent) (now1 now2 : Nat)
    (ht : mapFind r.tasks tid = some t)
    (ha : mapFind r.agents aid = some a)
    (hidle : a.status = agents.StatusIdle) :
    (agents.assignTask r tid aid now1).2 = none ∧
    (agents.assignTask (agents.assignTask r tid aid now1).1 tid aid now2).2 =
      some .errAgentBusy ∧
    (agents.assignTask (agents.assignTask r tid aid now1).1 tid aid now2).1 =
      (agents.assignTask r tid aid now1).1 ∧
    ((mapFind (agents.assignTask (agents.assignTask r tid aid now1).1
          tid aid now2).1.agents aid).map
        (fun x => (x.status, x.currentTask))) =
      some (agents.StatusWorking, some t.id) ∧
    ((mapFind (agents.assignTask (agents.assignTask r tid aid now1).1
          tid aid now2).1.tasks tid).map
        (fun x => (x.status, x.assignedTo))) =
      some (agents.TaskStatusInProgress, aid) := by
  have h1 : (agents.assignTask r tid aid now1).2 = none := by
    simp [agents.assignTask, ht, ha, hidle]
  have ht1 : mapFind (agents.assignTask r tid aid now1).1.tasks tid =
      some { t with assignedTo := aid, status := agents.TaskStatusInProgress,
                    startedAt := some now1, updatedAt := now1 } := by
    simp [agents.assignTask, ht, ha, hidle, mapFind_mapSet_self]
  have ha1 : mapFind (agents.assignTask r tid aid now1).1.agents aid =
      some { a with status := agents.StatusWorking, currentTask := some t.id,
                    updatedAt := now1 } := by
    simp [agents.assignTask, ht, ha, hidle, mapFind_mapSet_self]
  have h2 : agents.assignTask (agents.assignTask r tid aid now1).1 tid aid now2 =
      ((agents.assignTask r tid aid now1).1, some .errAgentBusy) := by
    generalize hR : (agents.assignTask r tid aid now1).1 = R1 at ht1 ha1 ⊢
    simp [agents.assignTask, ht1, ha1, agents.StatusWorking, agents.StatusIdle]
  refine ⟨h1, ?_, ?_, ?_, ?_⟩
  · rw [h2]
  · rw [h2]
  · rw [h2]; rw [ha1]; rfl
  · rw [h2]; rw [ht1]; rfl

/-- Witness for C9 on a one-task, one-agent registry. -/
theorem c9_witness :
    (agents.assignTask
      { tasks := [("t1", { id := "t1", status := agents.TaskStatusPending })],
        agents := [("a1", { id := "a1", status := agents.StatusIdle })] }
      "t1" "a1" 3).2 = none ∧
    (agents.assignTask
      (agents.assignTask
        { tasks := [("t1", { id := "t1", status := agents.TaskStatusPending })],
          agents := [("a1", { id := "a1", status := agents.StatusIdle })] }
        "t1" "a1" 3).1 "t1" "a1" 4).2 = some .errAgentBusy :=
  have h := c9_assignTask_exclusive
    { tasks := [("t1", { id := "t1", status := agents.TaskStatusPending })],
      agents := [("a1", { id := "a1", status := agents.StatusIdle })] }
    "t1" "a1"
    { id := "t1", status := agents.TaskStatusPending }
    { id := "a1", status := agents.StatusIdle }
    3 4 (by decide) (by decide) rfl
  ⟨h.1, h.2.1⟩

/-! ### C3: the Working-iff-CurrentTask agent invariant -/

theorem mapSet_forall {α : Type} {P : α → Prop} {l : List (String × α)}
    {k : String} {v : α} (hl : ∀ p ∈ l, P p.2) (hv : P v) :
    ∀ p ∈ mapSet l k v, P p.2 := by
  intro p hp
  rcases mem_mapSet hp with h | h
  · exact hl p h
  · rw [h]; exact hv

theorem tryAssignAgents_inv {t : agents.Task} {now : Nat}
    {as as' : List (String × agents.Agent)} {aid : String}
    (hl : ∀ p ∈ as, agents.agentInv p.2)
    (h : agents.tryAssignAgents t now as = some (as', aid)) :
    ∀ p ∈ as', agents.agentInv p.2 := by
  induction as generalizing as' with
  | nil => simp [agents.tryAssignAgents] at h
  | cons q rest ih =>
    obtain ⟨k, a⟩ := q
    by_cases hq : (a.status == agents.StatusIdle && a.config.autoAssign &&
        agents.matchesLabels a.labels t.labels) = true
    · simp only [agents.tryAssignAgents, if_pos hq, Option.some.injEq] at h
      rw [Prod.mk.injEq] at h
      obtain ⟨h1, _⟩ := h
      subst h1
      intro p hp
      rcases List.mem_cons.1 hp with h2 | h2
      · rw [h2]; simp [agents.agentInv, agents.StatusWorking]
      · exact hl p (List.mem_cons_of_mem _ h2)
    · simp only [agents.tryAssignAgents, if_neg hq] at h
      cases hrec : agents.tryAssignAgents t now rest with
      | none => rw [hrec] at h; cases h
      | some pr =>
        obtain ⟨rest', aid'⟩ := pr
        rw [hrec] at h
        simp only [Option.some.injEq] at h
        rw [Prod.mk.injEq] at h
        obtain ⟨h1, h2'⟩ := h
        subst h1
        subst h2'
        intro p hp
        rcases List.mem_cons.1 hp with h2 | h2
        · exact h2 ▸ hl _ (List.mem_cons_self _ _)
        · exact ih (fun p hp => hl p (List.mem_cons_of_mem _ hp)) hrec p h2

theorem autoAssignTasks_inv (now : Nat) (ts : List (String × agents.Task))
    (as : List (String × agents.Agent))
    (hl : ∀ p ∈ as, agents.agentInv p.2) :
    ∀ p ∈ (agents.autoAssignTasks now ts as).2.1, agents.agentInv p.2 := by
  induction ts generalizing as with
  | nil => simpa [agents.autoAssignTasks] using hl
  | cons q rest ih =>
    obtain ⟨k, t⟩ := q
    by_cases hp : (t.status == agents.TaskStatusPending) = true
    · simp only [agents.autoAssignTasks, if_pos hp]
      cases htry : agents.tryAssignAgents t now as with
      | some pr =>
        obtain ⟨as2, aid⟩ := pr
        have h2 := tryAssignAgents_inv hl htry
        rcases hE : agents.autoAssignTasks now rest as2 with ⟨ts', as3, n⟩
        simp only [hE]
        have h3 := ih as2 h2
        rw [hE] at h3
        exact h3
      | none =>
        rcases hE : agents.autoAssignTasks now rest as with ⟨ts', as3, n⟩
        simp only [hE]
        have h3 := ih as hl
        rw [hE] at h3
        exact h3
    · simp only [agents.autoAssignTasks, if_neg hp]
      rcases hE : agents.autoAssignTasks now rest as with ⟨ts', as3, n⟩
      simp only [hE]
      have h3 := ih as hl
      rw [hE] at h3
      exact h3

/-- Counterexample to C3 as stated: `StopAgent` on a `Working` agent sets
`Status = Offline` without clearing `CurrentTask`, leaving an agent with
`Status ≠ Working` but `CurrentTask ≠ nil` — the invariant is broken. -/
theorem c3_counterexample :
    agents.registryInv c3Reg ∧
    (agents.stopAgent c3Reg "a1" 5).2 = none ∧
    ¬ agents.registryInv (agents.stopAgent c3Reg "a1" 5).1 := by
  refine ⟨by decide, by decide, by decide⟩

/-- C3 (amended): `AssignTask`, `CompleteTask` and `AutoAssign` preserve the
invariant `Status == Working ↔ CurrentTask != nil` for every stored agent,
and so does `RegisterAgent` provided the incoming agent record carries no
`CurrentTask`; `StartAgent` and `StopAgent` do not preserve it, because
they overwrite `Status` (to Idle / Offline) without clearing `CurrentTask`
of a `Working` agent. -/
theorem c3_invariant_preservation :
    (∀ (r : agents.Registry) (a : agents.Agent) (fresh : String) (now : Nat),
        agents.registryInv r → a.currentTask = none →
        agents.registryInv (agents.registerAgent r a fresh now)) ∧
    (∀ (r : agents.Registry) (tid aid : String) (now : Nat),
        agents.registryInv r →
        agents.registryInv (agents.assignTask r tid aid now).1) ∧
    (∀ (r : agents.Registry) (tid : String) (res : Option agents.TaskResult)
        (now : Nat),
        agents.registryInv r →
        agents.registryInv (agents.completeTask r tid res now).1) ∧
    (∀ (r : agents.Registry) (now : Nat),
        agents.registryInv r →
        agents.registryInv (agents.autoAssign r now).1) := by
  refine ⟨?_, ?_, ?_, ?_⟩
  · intro r a fresh now hr hct
    by_cases hid : a.id = ""
    · simp only [agents.registerAgent, if_pos hid]
      exact mapSet_forall hr
        (by simp [agents.agentInv, agents.StatusIdle, agents.StatusWorking, hct])
    · simp only [agents.registerAgent, if_neg hid]
      exact mapSet_forall hr
        (by simp [agents.agentInv, agents.StatusIdle, agents.StatusWorking, hct])
  · intro r tid aid now hr
    unfold agents.assignTask
    cases hmt : mapFind r.tasks tid with
    | none => exact hr
    | some task =>
      cases hma : mapFind r.agents aid with
      | none => exact hr
      | some agent =>
        by_cases hb : agent.status ≠ agents.StatusIdle
        · simp only [if_pos hb]; exact hr
        · simp only [if_neg hb]
          exact mapSet_forall hr (by simp [agents.agentInv])
  · intro r tid res now hr
    unfold agents.completeTask
    cases hmt : mapFind r.tasks tid with
    | none => exact hr
    | some task =>
      by_cases hass : task.assignedTo ≠ ""
      · simp only [if_pos hass]
        cases hma : mapFind r.agents task.assignedTo with
        | none => exact hr
        | some agent =>
          exact mapSet_forall hr
            (by simp [agents.agentInv, agents.StatusIdle, agents.StatusWorking])
      · simp only [if_neg hass]
        exact hr
  · intro r now hr
    rcases hE : agents.autoAssignTasks now r.tasks r.agents with ⟨ts', as', n⟩
    simp only [agents.autoAssign, hE]
    have h3 := autoAssignTasks_inv now r.tasks r.agents hr
    rw [hE] at h3
    exact h3

/-- Witness for the amended C3 theorem: assigning `t1` to the idle agent
`a1` preserves the invariant on a concrete registry. -/
theorem c3_witness :
    agents.registryInv (agents.assignTask
      { tasks := [("t1", { id := "t1", status := agents.TaskStatusPending })],
        agents := [("a1", { id := "a1", status := agents.StatusIdle })] }
      "t1" "a1" 2).1 :=
  c3_invariant_preservation.2.1 _ "t1" "a1" 2 (by decide)

/-! ### C1: findBestAgent candidate filtering and maximum selection -/

namespace project

/-- Non-`"active"` agents never influence the scan: the candidate loop on
the full list equals the loop on the list filtered to `"active"` agents. -/
theorem findBestAgentGo_filter (t : Task) (l : List agents.Agent)
    (best : String) (s : ℚ) :
    findBestAgentGo t (l.filter (fun a => a.status == "active")) best s =
      findBestAgentGo t l best s := by
  induction l generalizing best s with
  | nil => rfl
  | cons a rest ih =>
    by_cases ha : a.status = "active"
    · simp only [List.filter_cons, ha, beq_self_eq_true, if_pos]
      simp only [findBestAgentGo, ha, ne_eq, not_true_eq_false, if_false]
      by_cases hs : s < calculateAgentScore t a
      · simp only [if_pos hs, ih]
      · simp only [if_neg hs, ih]
    · have hb : (a.status == "active") = false := by
        simp [ha]
      simp only [List.filter_cons, hb, Bool.false_eq_true, if_false]
      simp only [findBestAgentGo, ha, ne_eq, not_false_eq_true, if_true, ih]

/-- Accumulator invariant of the candidate loop: either the accumulator
survives and every `"active"` agent scores at most the accumulated score,
or some `"active"` agent wins with a score beating the accumulator and
every other `"active"` agent. -/
theorem findBestAgentGo_spec (t : Task) (l : List agents.Agent)
    (best : String) (s : ℚ) :
    (findBestAgentGo t l best s = best ∧
      ∀ a ∈ l, a.status = "active" → calculateAgentScore t a ≤ s) ∨
    (∃ a ∈ l, a.status = "active" ∧ findBestAgentGo t l best s = a.id ∧
      s < calculateAgentScore t a ∧
      ∀ b ∈ l, b.status = "active" →
        calculateAgentScore t b ≤ calculateAgentScore t a) := by
  induction l generalizing best s with
  | nil => exact Or.inl ⟨rfl, by simp⟩
  | cons a rest ih =>
    by_cases ha : a.status = "active"
    · by_cases hs : s < calculateAgentScore t a
      · simp only [findBestAgentGo, ha, ne_eq, not_true_eq_false, if_false,
          if_pos hs]
        rcases ih a.id (calculateAgentScore t a) with ⟨heq, hb⟩ | ⟨c, hc, hca, heq, hlt, hb⟩
        · refine Or.inr ⟨a, List.mem_cons_self _ _, ha, heq, hs, ?_⟩
          intro b hb' hact
          rcases List.mem_cons.1 hb' with h | h
          · exact le_of_eq (by rw [h])
          · exact hb b h hact
        · refine Or.inr ⟨c, List.mem_cons_of_mem _ hc, hca, heq, lt_trans hs hlt, ?_⟩
          intro b hb' hact
          rcases List.mem_cons.1 hb' with h | h
          · exact le_of_lt (h ▸ hlt)
          · exact hb b h hact
      · simp only [findBestAgentGo, ha, ne_eq, not_true_eq_false, if_false,
          if_neg hs]
        rcases ih best s with ⟨heq, hb⟩ | ⟨c, hc, hca, heq, hlt, hb⟩
        · refine Or.inl ⟨heq, ?_⟩
          intro b hb' hact
          rcases List.mem_cons.1 hb' with h | h
          · exact h ▸ le_of_not_lt hs
          · exact hb b h hact
        · refine Or.inr ⟨c, List.mem_cons_of_mem _ hc, hca, heq, hlt, ?_⟩
          intro b hb' hact
          rcases List.mem_cons.1 hb' with h | h
          · exact h ▸ le_trans (le_of_not_lt hs) (le_of_lt hlt)
          · exact hb b h hact
    · simp only [findBestAgentGo, ha, ne_eq, not_false_eq_true, if_true]
      rcases ih best s with ⟨heq, hb⟩ | ⟨c, hc, hca, heq, hlt, hb⟩
      · refine Or.inl ⟨heq, ?_⟩
        intro b hb' hact
        rcases List.mem_cons.1 hb' with h | h
        · exact absurd (h ▸ hact) ha
        · exact hb b h hact
      · refine Or.inr ⟨c, List.mem_cons_of_mem _ hc, hca, heq, hlt, ?_⟩
        intro b hb' hact
        rcases List.mem_cons.1 hb' with h | h
        · exact absurd (h ▸ hact) ha
        · exact hb b h hact

end project

/-- Counterexample to C1 as stated: the agent is idle and scores 1 (> 0) on
the task, yet `findBestAgent` returns the empty ID — the source's guard is
`Status != "active"`, which skips idle agents (no registry status constant
is `"active"`), contradicting the claim that idle agents are candidates. -/
theorem c1_counterexample :
    c1Agent.status = agents.StatusIdle ∧
    project.calculateAgentScore c1Task c1Agent = 1 ∧
    project.findBestAgent c1Task [c1Agent] = "" := by
  refine ⟨rfl, ?_, by decide⟩
  simp +decide [project.calculateAgentScore, project.extractKeywords,
    project.splitWords, project.splitWordsAux, project.isSpaceChar,
    project.isStopWord, project.stopWords, project.containsString,
    project.containsSubstring, c1Task, c1Agent]

/-- C1 (amended): `findBestAgent` skips exactly those agents whose Status
is not the literal string `"active"` — in particular idle agents are
skipped, since the registry's status constants are
idle/working/paused/error/offline; over the remaining candidates it keeps
the maximum score, returning the first agent whose score strictly exceeds
every accumulated one, and the empty agent ID when no candidate scores
above 0. -/
theorem c1_findBestAgent_active_max (t : project.Task) (l : List agents.Agent) :
    project.findBestAgent t (l.filter (fun a => a.status == "active")) =
      project.findBestAgent t l ∧
    ((project.findBestAgent t l = "" ∧
        ∀ a ∈ l, a.status = "active" → project.calculateAgentScore t a ≤ 0) ∨
      (∃ a ∈ l, a.status = "active" ∧ project.findBestAgent t l = a.id ∧
        0 < project.calculateAgentScore t a ∧
        ∀ b ∈ l, b.status = "active" →
          project.calculateAgentScore t b ≤ project.calculateAgentScore t a)) :=
  ⟨project.findBestAgentGo_filter t l "" 0, project.findBestAgentGo_spec t l "" 0⟩

/-- Witness for the amended C1 theorem: on the singleton idle-agent list
the filtered candidate set is empty and the result is unchanged (both
empty). -/
theorem c1_witness :
    project.findBestAgent c1Task ([c1Agent].filter (fun a => a.status == "active")) =
      project.findBestAgent c1Task [c1Agent] ∧
    ([c1Agent].filter (fun a => a.status == "active")) = [] :=
  ⟨(c1_findBestAgent_active_max c1Task [c1Agent]).1, by decide⟩

/-! ### C6: the keyword/capability scoring formula -/

namespace project

theorem capability_foldl_count (kw : List Char) (caps : List (List Char))
    (s : ℚ) :
    caps.foldl (fun s2 cap => if containsString cap kw then s2 + 1 else s2) s =
      s + ((caps.filter (fun cap => containsSubstring cap kw)).length : ℚ) := by
  induction caps generalizing s with
  | nil => simp
  | cons c rest ih =>
    simp only [List.foldl_cons]
    rw [containsString_eq_containsSubstring c kw]
    by_cases hc : containsSubstring c kw = true
    · simp only [hc, if_true, ih, List.filter_cons, List.length_cons]
      push_cast
      ring
    · have hc' : containsSubstring c kw = false := by simpa using hc
      simp [hc', ih]

theorem foldl_add_sum (f : List Char → ℚ) (ks : List (List Char)) (s : ℚ) :
    ks.foldl (fun s1 kw => s1 + f kw) s = s + (ks.map f).sum := by
  induction ks generalizing s with
  | nil => simp
  | cons kw rest ih =>
    simp only [List.foldl_cons, ih, List.map_cons, List.sum_cons]
    ring

theorem keyword_foldl_sum (ks : List (List Char)) (caps : List (List Char))
    (s : ℚ) :
    ks.foldl (fun s1 kw =>
        caps.foldl (fun s2 cap => if containsString cap kw then s2 + 1 else s2) s1) s =
      s + ((ks.map (fun kw =>
        ((caps.filter (fun cap => containsSubstring cap kw)).length : ℚ))).sum) := by
  have hfun : (fun (s1 : ℚ) (kw : List Char) =>
      caps.foldl (fun s2 cap => if containsString cap kw then s2 + 1 else s2) s1) =
      (fun (s1 : ℚ) (kw : List Char) =>
        s1 + ((caps.filter (fun cap => containsSubstring cap kw)).length : ℚ)) := by
    funext s1 kw
    exact capability_foldl_count kw caps s1
  rw [hfun, foldl_add_sum]

end project

/-- Counterexample to C6 as stated: the tokenizer does not lowercase — the
keyword extracted from title `"Code"` is `"Code"` itself, which the
capability `"code"` does not contain, so the score is 0; under the claimed
lowercase tokenization the keyword would be `"code"`, contained in the
capability (score 1). -/
theorem c6_counterexample :
    project.extractKeywords ("Code".toList ++ ' ' :: ([] : List Char)) =
      ["Code".toList] ∧
    "Code".toList ≠ "code".toList ∧
    project.containsString "code".toList "code".toList = true ∧
    project.containsString "code".toList "Code".toList = false ∧
    project.calculateAgentScore c6Task c6Agent = 0 := by
  refine ⟨by decide, by decide, by decide, by decide, ?_⟩
  simp +decide [project.calculateAgentScore, project.extractKeywords,
    project.splitWords, project.splitWordsAux, project.isSpaceChar,
    project.isStopWord, project.stopWords, project.containsString,
    project.containsSubstring, c6Task, c6Agent]

/-- C6 (amended): the score tokenizes `Title + " " + Description` into
words as written (no lowercasing; splitting on space/tab/LF/CR), discards
tokens of length at most 3 and tokens in the fixed stop-word set, adds 1.0
for every (keyword, capability) pair in which the capability contains the
keyword as a contiguous substring, and multiplies the total by
`1 - Load/100`. -/
theorem c6_calculateAgentScore_formula (t : project.Task) (a : agents.Agent) :
    project.calculateAgentScore t a =
      (((project.extractKeywords (t.title ++ ' ' :: t.description)).map
          (fun kw => ((a.capabilities.filter
            (fun cap => project.containsSubstring cap kw)).length : ℚ))).sum) *
        (1 - (a.load : ℚ) / 100) ∧
    ∀ kw ∈ project.extractKeywords (t.title ++ ' ' :: t.description),
      3 < kw.length ∧ project.isStopWord kw = false := by
  constructor
  · simp only [project.calculateAgentScore]
    rw [project.keyword_foldl_sum, zero_add]
  · intro kw hkw
    unfold project.extractKeywords at hkw
    have h := List.of_mem_filter hkw
    simp only [Bool.and_eq_true, decide_eq_true_eq, Bool.not_eq_true'] at h
    exact h

/-- Witness for the amended C6 theorem at the counterexample task/agent:
the score equals the (empty-count) sum formula, and the extracted keyword
`"Code"` is long enough and not a stop word. -/
theorem c6_witness :
    project.calculateAgentScore c6Task c6Agent =
      (((project.extractKeywords (c6Task.title ++ ' ' :: c6Task.description)).map
          (fun kw => ((c6Agent.capabilities.filter
            (fun cap => project.containsSubstring cap kw)).length : ℚ))).sum) *
        (1 - (c6Agent.load : ℚ) / 100) ∧
    3 < ("Code".toList).length ∧ project.isStopWord ("Code".toList) = false :=
  ⟨(c6_calculateAgentScore_formula c6Task c6Agent).1,
   (c6_calculateAgentScore_formula c6Task c6Agent).2 "Code".toList (by decide)⟩

/-! ### C5: AutoAssign first-match label-based assignment -/

namespace agents

theorem qualifies_spec {a : Agent} {t : Task} (h : qualifies a t = true) :
    a.status = StatusIdle ∧ a.config.autoAssign = true ∧
      matchesLabels a.labels t.labels = true := by
  simpa [qualifies, Bool.and_eq_true, beq_iff_eq, and_assoc] using h

theorem agentStep_working {now : Nat} {a a' : Agent}
    (h : agentStep now a a') (hw : a.status = StatusWorking) : a' = a := by
  rcases h with h | ⟨hi, _, _, _⟩
  · exact h
  · rw [hw] at hi
    exact absurd hi (by decide)

theorem agentStep_preserves_working {now : Nat} {a a' : Agent}
    (h : agentStep now a a') (hw : a.status = StatusWorking) :
    a'.status = StatusWorking := by
  rw [agentStep_working h hw]
  exact hw

theorem agentStep_trans {now : Nat} {a b c : Agent}
    (h1 : agentStep now a b) (h2 : agentStep now b c) : agentStep now a c := by
  rcases h1 with rfl | ⟨hi, hauto, tid, rfl⟩
  · exact h2
  · rcases h2 with rfl | ⟨hi2, _, _, _⟩
    · exact Or.inr ⟨hi, hauto, tid, rfl⟩
    · exfalso
      simp [StatusWorking, StatusIdle] at hi2

theorem tryAssignAgents_none_spec {t : Task} {now : Nat}
    {as : List (String × Agent)} (h : tryAssignAgents t now as = none) :
    ∀ p ∈ as, qualifies p.2 t = false := by
  induction as with
  | nil => simp
  | cons q rest ih =>
    obtain ⟨k, a⟩ := q
    by_cases hq : (a.status == StatusIdle && a.config.autoAssign &&
        matchesLabels a.labels t.labels) = true
    · simp only [tryAssignAgents, if_pos hq] at h
      cases h
    · simp only [tryAssignAgents, if_neg hq] at h
      intro p hp
      rcases List.mem_cons.1 hp with h1 | h1
      · rw [h1]
        simpa [qualifies] using hq
      · cases hrec : tryAssignAgents t now rest with
        | none => exact ih hrec p h1
        | some pr =>
          rw [hrec] at h
          obtain ⟨rest2, aid⟩ := pr
          cases h

theorem tryAssignAgents_some_spec {t : Task} {now : Nat} :
    ∀ {as as2 : List (String × Agent)} {aid : String},
    tryAssignAgents t now as = some (as2, aid) →
    as2.length = as.length ∧
    ∃ j, ∃ hj : j < as.length, ∃ hj2 : j < as2.length,
      qualifies ((as.get ⟨j, hj⟩).2) t = true ∧
      aid = (as.get ⟨j, hj⟩).2.id ∧
      as2.get ⟨j, hj2⟩ = ((as.get ⟨j, hj⟩).1,
        { (as.get ⟨j, hj⟩).2 with
            status := StatusWorking,
            currentTask := some t.id, updatedAt := now }) ∧
      (∀ i, ∀ hi : i < as.length, ∀ hi2 : i < as2.length, i ≠ j →
        as2.get ⟨i, hi2⟩ = as.get ⟨i, hi⟩) ∧
      (∀ i, ∀ hi : i < as.length, i < j →
        qualifies ((as.get ⟨i, hi⟩).2) t = false) := by
  intro as
  induction as with
  | nil =>
    intro as2 aid h
    exact absurd h (by simp [tryAssignAgents])
  | cons q rest ih =>
    obtain ⟨k, a⟩ := q
    intro as2 aid h
    by_cases hq : (a.status == StatusIdle && a.config.autoAssign &&
        matchesLabels a.labels t.labels) = true
    · simp only [tryAssignAgents, if_pos hq, Option.some.injEq] at h
      rw [Prod.mk.injEq] at h
      obtain ⟨h1, h2⟩ := h
      subst h1
      subst h2
      refine ⟨rfl, 0, by simp, by simp, hq, rfl, rfl, ?_, ?_⟩
      · intro i hi hi2 hne
        cases i with
        | zero => exact absurd rfl hne
        | succ i' => rfl
      · intro i hi hlt
        exact absurd hlt (Nat.not_lt_zero i)
    · simp only [tryAssignAgents, if_neg hq] at h
      cases hrec : tryAssignAgents t now rest with
      | none =>
        rw [hrec] at h
        cases h
      | some pr =>
        obtain ⟨rest2, aid'⟩ := pr
        rw [hrec] at h
        simp only [Option.some.injEq] at h
        rw [Prod.mk.injEq] at h
        obtain ⟨h1, h2⟩ := h
        subst h1
        subst h2
        obtain ⟨hlen, j, hj, hj2, hqual, haid, hset, hother, hearlier⟩ := ih hrec
        refine ⟨by simpa using hlen, j + 1, by simpa using Nat.succ_lt_succ hj,
          by simpa using Nat.succ_lt_succ hj2, hqual, haid, hset, ?_, ?_⟩
        · intro i hi hi2 hne
          cases i with
          | zero => rfl
          | succ i' =>
            exact hother i' (by simpa using hi) (by simpa using hi2) (by omega)
        · intro i hi hlt
          cases i with
          | zero => simpa [qualifies] using hq
          | succ i' =>
            exact hearlier i' (by simpa using hi) (by omega)


theorem autoAssignTasks_cons_some (now : Nat) (k : String) (t : Task)
    (rest : List (String × Task)) (as as2 : List (String × Agent))
    (aid : String) (ts' : List (String × Task)) (as3 : List (String × Agent))
    (n : Nat)
    (hp : (t.status == TaskStatusPending) = true)
    (htry : tryAssignAgents t now as = some (as2, aid))
    (hE : autoAssignTasks now rest as2 = (ts', as3, n)) :
    autoAssignTasks now ((k, t) :: rest) as =
      ((k, { t with assignedTo := aid, status := TaskStatusQueued,
                    updatedAt := now }) :: ts', as3, n + 1) := by
  simp only [autoAssignTasks]
  rw [if_pos hp, htry]
  simp only [hE]

theorem autoAssignTasks_cons_none (now : Nat) (k : String) (t : Task)
    (rest : List (String × Task)) (as : List (String × Agent))
    (ts' : List (String × Task)) (as3 : List (String × Agent)) (n : Nat)
    (hp : (t.status == TaskStatusPending) = true)
    (htry : tryAssignAgents t now as = none)
    (hE : autoAssignTasks now rest as = (ts', as3, n)) :
    autoAssignTasks now ((k, t) :: rest) as = ((k, t) :: ts', as3, n) := by
  simp only [autoAssignTasks]
  rw [if_pos hp, htry]
  simp only [hE]

theorem autoAssignTasks_cons_skip (now : Nat) (k : String) (t : Task)
    (rest : List (String × Task)) (as : List (String × Agent))
    (ts' : List (String × Task)) (as3 : List (String × Agent)) (n : Nat)
    (hp : ¬ (t.status == TaskStatusPending) = true)
    (hE : autoAssignTasks now rest as = (ts', as3, n)) :
    autoAssignTasks now ((k, t) :: rest) as = ((k, t) :: ts', as3, n) := by
  simp only [autoAssignTasks]
  rw [if_neg hp]
  simp only [hE]

theorem autoAssignTasks_agents (now : Nat) (ts : List (String × Task)) :
    ∀ as : List (String × Agent),
    (autoAssignTasks now ts as).2.1.length = as.length ∧
    ∀ j, ∀ hj : j < as.length, ∀ hj' : j < (autoAssignTasks now ts as).2.1.length,
      ((autoAssignTasks now ts as).2.1.get ⟨j, hj'⟩).1 = (as.get ⟨j, hj⟩).1 ∧
      agentStep now ((as.get ⟨j, hj⟩).2)
        (((autoAssignTasks now ts as).2.1.get ⟨j, hj'⟩).2) := by
  induction ts with
  | nil =>
    intro as
    exact ⟨rfl, fun j hj hj' => ⟨rfl, Or.inl rfl⟩⟩
  | cons q rest ih =>
    obtain ⟨k, t⟩ := q
    intro as
    by_cases hp : (t.status == TaskStatusPending) = true
    · cases htry : tryAssignAgents t now as with
      | some pr =>
        obtain ⟨as2, aid⟩ := pr
        obtain ⟨hlen2, j0, hj0, hj02, hq0, haid, hset, hother, hearlier⟩ :=
          tryAssignAgents_some_spec htry
        have hIH := ih as2
        rcases hE : autoAssignTasks now rest as2 with ⟨ts', as3, n⟩
        rw [hE] at hIH
        rw [autoAssignTasks_cons_some now k t rest as as2 aid ts' as3 n hp htry hE]
        obtain ⟨hlen3, hstep3⟩ := hIH
        have hlen3' : as3.length = as2.length := hlen3
        refine ⟨hlen3'.trans hlen2, ?_⟩
        intro j hj hj'
        have hj'' : j < as3.length := hj'
        have hj2 : j < as2.length := by omega
        have hstep12 : ((as2.get ⟨j, hj2⟩).1 = (as.get ⟨j, hj⟩).1) ∧
            agentStep now ((as.get ⟨j, hj⟩).2) ((as2.get ⟨j, hj2⟩).2) := by
          by_cases hjj : j = j0
          · subst hjj
            have hset' : as2.get ⟨j, hj2⟩ = ((as.get ⟨j, hj⟩).1,
                { (as.get ⟨j, hj⟩).2 with
                    status := StatusWorking,
                    currentTask := some t.id, updatedAt := now }) := hset
            rw [hset']
            obtain ⟨hidle, hauto, _⟩ := qualifies_spec hq0
            exact ⟨rfl, Or.inr ⟨hidle, hauto, t.id, rfl⟩⟩
          · rw [hother j hj hj2 hjj]
            exact ⟨rfl, Or.inl rfl⟩
        obtain ⟨hk12, hs12⟩ := hstep12
        obtain ⟨hk23, hs23⟩ := hstep3 j hj2 hj'
        exact ⟨hk23.trans hk12, agentStep_trans hs12 hs23⟩
      | none =>
        have hIH := ih as
        rcases hE : autoAssignTasks now rest as with ⟨ts', as3, n⟩
        rw [hE] at hIH
        rw [autoAssignTasks_cons_none now k t rest as ts' as3 n hp htry hE]
        exact hIH
    · have hIH := ih as
      rcases hE : autoAssignTasks now rest as with ⟨ts', as3, n⟩
      rw [hE] at hIH
      rw [autoAssignTasks_cons_skip now k t rest as ts' as3 n hp hE]
      exact hIH

theorem autoAssignTasks_count (now : Nat) (ts : List (String × Task)) :
    ∀ as : List (String × Agent),
    (autoAssignTasks now ts as).2.2 =
      ((ts.zip (autoAssignTasks now ts as).1).filter
        (fun p => decide (p.1 ≠ p.2))).length := by
  induction ts with
  | nil =>
    intro as
    rfl
  | cons q rest ih =>
    obtain ⟨k, t⟩ := q
    intro as
    by_cases hp : (t.status == TaskStatusPending) = true
    · cases htry : tryAssignAgents t now as with
      | some pr =>
        obtain ⟨as2, aid⟩ := pr
        rcases hE : autoAssignTasks now rest as2 with ⟨ts', as3, n⟩
        have hIH := ih as2
        rw [hE] at hIH
        rw [autoAssignTasks_cons_some now k t rest as as2 aid ts' as3 n hp htry hE]
        have htp : t.status = TaskStatusPending := by simpa using hp
        have hneq : ((k, t) : String × Task) ≠
            (k, { t with assignedTo := aid, status := TaskStatusQueued,
                         updatedAt := now }) := by
          intro h
          have h2 : t = { t with assignedTo := aid, status := TaskStatusQueued,
                                 updatedAt := now } := congrArg Prod.snd h
          have h3 : t.status = TaskStatusQueued := congrArg Task.status h2
          rw [htp] at h3
          exact absurd h3 (by decide)
        simp only [List.zip_cons_cons, List.filter_cons]
        simp [hneq]
        simpa using hIH
      | none =>
        rcases hE : autoAssignTasks now rest as with ⟨ts', as3, n⟩
        have hIH := ih as
        rw [hE] at hIH
        rw [autoAssignTasks_cons_none now k t rest as ts' as3 n hp htry hE]
        simp only [List.zip_cons_cons, List.filter_cons]
        simp
        simpa using hIH
    · rcases hE : autoAssignTasks now rest as with ⟨ts', as3, n⟩
      have hIH := ih as
      rw [hE] at hIH
      rw [autoAssignTasks_cons_skip now k t rest as ts' as3 n hp hE]
      simp only [List.zip_cons_cons, List.filter_cons]
      simp
      simpa using hIH

theorem autoAssignTasks_tasks (now : Nat) (ts : List (String × Task)) :
    ∀ as : List (String × Agent),
    (autoAssignTasks now ts as).1.length = ts.length ∧
    ∀ i, ∀ hi : i < ts.length, ∀ hi' : i < (autoAssignTasks now ts as).1.length,
      ((autoAssignTasks now ts as).1.get ⟨i, hi'⟩).1 = (ts.get ⟨i, hi⟩).1 ∧
      ((ts.get ⟨i, hi⟩).2.status ≠ TaskStatusPending →
        (autoAssignTasks now ts as).1.get ⟨i, hi'⟩ = ts.get ⟨i, hi⟩) ∧
      ((autoAssignTasks now ts as).1.get ⟨i, hi'⟩ ≠ ts.get ⟨i, hi⟩ →
        (ts.get ⟨i, hi⟩).2.status = TaskStatusPending ∧
        assignedSpec now as ((autoAssignTasks now ts as).2.1)
          ((ts.get ⟨i, hi⟩).2)
          (((autoAssignTasks now ts as).1.get ⟨i, hi'⟩).2)) ∧
      ((autoAssignTasks now ts as).1.get ⟨i, hi'⟩ = ts.get ⟨i, hi⟩ →
        (ts.get ⟨i, hi⟩).2.status = TaskStatusPending →
        ∀ j, ∀ hjx : j < as.length,
          ∀ hjx' : j < (autoAssignTasks now ts as).2.1.length,
          qualifies ((as.get ⟨j, hjx⟩).2) ((ts.get ⟨i, hi⟩).2) = true →
          (((autoAssignTasks now ts as).2.1.get ⟨j, hjx'⟩).2).status =
            StatusWorking) := by
  induction ts with
  | nil =>
    intro as
    exact ⟨rfl, fun i hi => absurd hi (Nat.not_lt_zero i)⟩
  | cons q rest ih =>
    obtain ⟨k, t⟩ := q
    intro as
    by_cases hp : (t.status == TaskStatusPending) = true
    · cases htry : tryAssignAgents t now as with
      | some pr =>
        obtain ⟨as2, aid⟩ := pr
        obtain ⟨hlen2, j0, hj0, hj02, hq0, haid, hset, hother, hearlier⟩ :=
          tryAssignAgents_some_spec htry
        have hIH := ih as2
        have hAg := autoAssignTasks_agents now rest as2
        rcases hE : autoAssignTasks now rest as2 with ⟨ts', as3, n⟩
        rw [hE] at hIH hAg
        obtain ⟨hlenAg, hstep3⟩ := hAg
        have hlen3 : as3.length = as2.length := hlenAg
        have hlen1 : ts'.length = rest.length := hIH.1
        rw [autoAssignTasks_cons_some now k t rest as as2 aid ts' as3 n hp htry hE]
        refine ⟨by simp [hlen1], ?_⟩
        intro i hi hi'
        cases i with
        | zero =>
          have htp : t.status = TaskStatusPending := by simpa using hp
          refine ⟨rfl, ?_, ?_, ?_⟩
          · intro hns
            exact absurd (by simpa using hp) hns
          · intro hne
            refine ⟨htp, ?_⟩
            have hj3 : j0 < as3.length := by omega
            refine ⟨j0, hj0, hj3, hq0, ?_, ?_, ?_⟩
            · rw [haid]
              rfl
            · obtain ⟨hk23, hs23⟩ := hstep3 j0 hj02 hj3
              have hw2 : (as2.get ⟨j0, hj02⟩).2.status = StatusWorking := by
                rw [hset]
              have heq := agentStep_working hs23 hw2
              rw [heq]
              exact congrArg Prod.snd hset
            · intro i2 hi2 hi2' hlt hq2
              have hq2' : qualifies ((as.get ⟨i2, hi2⟩).2) t = true := hq2
              rw [hearlier i2 hi2 hlt] at hq2'
              cases hq2'
          · intro heq htp2
            exfalso
            have h2 : ({ t with
                assignedTo := aid, status := TaskStatusQueued,
                updatedAt := now } : Task) = t := congrArg Prod.snd heq
            have h3 : TaskStatusQueued = t.status := congrArg Task.status h2
            rw [htp] at h3
            exact absurd h3 (by decide)
        | succ i0 =>
          have hi0 : i0 < rest.length := by simpa using hi
          have hi0' : i0 < ts'.length := by
            have h1 : i0 + 1 < ts'.length + 1 := by simpa using hi'
            omega
          obtain ⟨hkey, hframe, hassigned, hmissed⟩ := hIH.2 i0 hi0 hi0'
          refine ⟨hkey, hframe, ?_, ?_⟩
          · intro hne
            obtain ⟨htp, hspec⟩ := hassigned hne
            refine ⟨htp, ?_⟩
            obtain ⟨j, hjas2, hj3, hq, ht', hagent, hprev⟩ := hspec
            have hjas : j < as.length := by omega
            have hjj0 : j ≠ j0 := by
              intro hcontra
              subst hcontra
              have hw2 : (as2.get ⟨j, hj02⟩).2.status = StatusWorking := by
                rw [hset]
              obtain ⟨hidle, _, _⟩ := qualifies_spec hq
              have hent : (as2.get ⟨j, hjas2⟩).2 = (as2.get ⟨j, hj02⟩).2 := rfl
              rw [hent] at hidle
              exact absurd (hw2.symm.trans hidle) (by decide)
            have has2j : as2.get ⟨j, hjas2⟩ = as.get ⟨j, hjas⟩ :=
              hother j hjas hjas2 hjj0
            refine ⟨j, hjas, hj3, ?_, ?_, ?_, ?_⟩
            · rw [← has2j]
              exact hq
            · rw [← has2j]
              exact ht'
            · rw [← has2j]
              exact hagent
            · intro i2 hi2as hi2as3 hlt hq2
              by_cases hii : i2 = j0
              · subst hii
                obtain ⟨_, hs23⟩ := hstep3 i2 hj02 hi2as3
                have hw2 : (as2.get ⟨i2, hj02⟩).2.status = StatusWorking := by
                  rw [hset]
                exact agentStep_preserves_working hs23 hw2
              · have hi2as2 : i2 < as2.length := by omega
                have heq2 : as2.get ⟨i2, hi2as2⟩ = as.get ⟨i2, hi2as⟩ :=
                  hother i2 hi2as hi2as2 hii
                apply hprev i2 hi2as2 hi2as3 hlt
                rw [heq2]
                exact hq2
          · intro heq htp2 j hjx hjx' hqj
            by_cases hjj : j = j0
            · subst hjj
              obtain ⟨_, hs23⟩ := hstep3 j hj02 hjx'
              have hw2 : (as2.get ⟨j, hj02⟩).2.status = StatusWorking := by
                rw [hset]
              exact agentStep_preserves_working hs23 hw2
            · have hjas2x : j < as2.length := by omega
              have heq2 : as2.get ⟨j, hjas2x⟩ = as.get ⟨j, hjx⟩ :=
                hother j hjx hjas2x hjj
              apply hmissed heq htp2 j hjas2x hjx'
              rw [heq2]
              exact hqj
      | none =>
        have hnone := tryAssignAgents_none_spec htry
        have hIH := ih as
        have hAg := autoAssignTasks_agents now rest as
        rcases hE : autoAssignTasks now rest as with ⟨ts', as3, n⟩
        rw [hE] at hIH hAg
        have hlen1 : ts'.length = rest.length := hIH.1
        rw [autoAssignTasks_cons_none now k t rest as ts' as3 n hp htry hE]
        refine ⟨by simp [hlen1], ?_⟩
        intro i hi hi'
        cases i with
        | zero =>
          refine ⟨rfl, fun _ => rfl, fun hne => absurd rfl hne, ?_⟩
          intro heq htp2 j hjx hjx' hqj
          have hq' : qualifies ((as.get ⟨j, hjx⟩).2) t = true := hqj
          rw [hnone (as.get ⟨j, hjx⟩) (List.get_mem as j hjx)] at hq'
          cases hq'
        | succ i0 =>
          have hi0 : i0 < rest.length := by simpa using hi
          have hi0' : i0 < ts'.length := by
            have h1 : i0 + 1 < ts'.length + 1 := by simpa using hi'
            omega
          exact hIH.2 i0 hi0 hi0'
    · have hIH := ih as
      rcases hE : autoAssignTasks now rest as with ⟨ts', as3, n⟩
      rw [hE] at hIH
      have hlen1 : ts'.length = rest.length := hIH.1
      rw [autoAssignTasks_cons_skip now k t rest as ts' as3 n hp hE]
      refine ⟨by simp [hlen1], ?_⟩
      intro i hi hi'
      cases i with
      | zero =>
        refine ⟨rfl, fun _ => rfl, fun hne => absurd rfl hne, ?_⟩
        intro heq htp2
        exact absurd (by simpa using htp2) hp
      | succ i0 =>
        have hi0 : i0 < rest.length := by simpa using hi
        have hi0' : i0 < ts'.length := by
          have h1 : i0 + 1 < ts'.length + 1 := by simpa using hi'
          omega
        exact hIH.2 i0 hi0 hi0'

end agents

/-- C5: `AutoAssign` scans tasks in map order and, for each Pending task,
claims the first agent (in map order) that is Idle, has auto-assign
enabled, and matches labels (wildcard when the agent has no labels);
the assigned task becomes `Queued` with `AssignedTo` set to that agent's
ID, the agent becomes `Working` with `CurrentTask` the task, non-Pending
tasks are untouched, the returned count is the number of tasks changed,
and every agent that changes was Idle with auto-assign enabled
(`agentStep`); `assignedSpec` additionally pins the first-match rule:
every earlier initially-qualifying agent ends up `Working`. -/
theorem c5_autoAssign_first_match (r : agents.Registry) (now : Nat) :
    (agents.autoAssign r now).1.tasks.length = r.tasks.length ∧
    (agents.autoAssign r now).1.agents.length = r.agents.length ∧
    (agents.autoAssign r now).2 =
      ((r.tasks.zip (agents.autoAssign r now).1.tasks).filter
        (fun p => decide (p.1 ≠ p.2))).length ∧
    (∀ i, ∀ hi : i < r.tasks.length,
      ∀ hi' : i < (agents.autoAssign r now).1.tasks.length,
      ((agents.autoAssign r now).1.tasks.get ⟨i, hi'⟩).1 =
        (r.tasks.get ⟨i, hi⟩).1 ∧
      ((r.tasks.get ⟨i, hi⟩).2.status ≠ agents.TaskStatusPending →
        (agents.autoAssign r now).1.tasks.get ⟨i, hi'⟩ = r.tasks.get ⟨i, hi⟩) ∧
      ((agents.autoAssign r now).1.tasks.get ⟨i, hi'⟩ ≠ r.tasks.get ⟨i, hi⟩ →
        (r.tasks.get ⟨i, hi⟩).2.status = agents.TaskStatusPending ∧
        agents.assignedSpec now r.agents (agents.autoAssign r now).1.agents
          ((r.tasks.get ⟨i, hi⟩).2)
          (((agents.autoAssign r now).1.tasks.get ⟨i, hi'⟩).2)) ∧
      ((agents.autoAssign r now).1.tasks.get ⟨i, hi'⟩ = r.tasks.get ⟨i, hi⟩ →
        (r.tasks.get ⟨i, hi⟩).2.status = agents.TaskStatusPending →
        ∀ j, ∀ hjx : j < r.agents.length,
          ∀ hjx' : j < (agents.autoAssign r now).1.agents.length,
          agents.qualifies ((r.agents.get ⟨j, hjx⟩).2)
            ((r.tasks.get ⟨i, hi⟩).2) = true →
          (((agents.autoAssign r now).1.agents.get ⟨j, hjx'⟩).2).status =
            agents.StatusWorking)) ∧
    (∀ j, ∀ hj : j < r.agents.length,
      ∀ hj' : j < (agents.autoAssign r now).1.agents.length,
      ((agents.autoAssign r now).1.agents.get ⟨j, hj'⟩).1 =
        (r.agents.get ⟨j, hj⟩).1 ∧
      agents.agentStep now ((r.agents.get ⟨j, hj⟩).2)
        (((agents.autoAssign r now).1.agents.get ⟨j, hj'⟩).2)) :=
  ⟨(agents.autoAssignTasks_tasks now r.tasks r.agents).1,
   (agents.autoAssignTasks_agents now r.tasks r.agents).1,
   agents.autoAssignTasks_count now r.tasks r.agents,
   (agents.autoAssignTasks_tasks now r.tasks r.agents).2,
   (agents.autoAssignTasks_agents now r.tasks r.agents).2⟩

/-- Witness for C5: on `c5Reg` the count equation holds and the pending
task is assigned per `assignedSpec` (agent `a0`, auto-assign disabled, is
passed over; `a1` is claimed). -/
theorem c5_witness :
    (agents.autoAssign c5Reg 9).2 =
      ((c5Reg.tasks.zip (agents.autoAssign c5Reg 9).1.tasks).filter
        (fun p => decide (p.1 ≠ p.2))).length ∧
    agents.assignedSpec 9 c5Reg.agents (agents.autoAssign c5Reg 9).1.agents
      ((c5Reg.tasks.get ⟨0, by decide⟩).2)
      (((agents.autoAssign c5Reg 9).1.tasks.get ⟨0, by decide⟩).2) := by
  have h := c5_autoAssign_first_match c5Reg 9
  refine ⟨h.2.2.1, ?_⟩
  have h4 := h.2.2.2.1 0 (by decide) (by decide)
  exact (h4.2.2.1 (by decide)).2
